import Mathlib

/-!
# A verification development for the `rudis` in-memory key-value store

This file gives a shallow embedding of the core of the `rudis` server
(`src/db.rs`, `src/cmd/mod.rs`, `src/server.rs`) and proves properties of
the embedded code.

Modelling conventions:
* `Instant` and `Duration` are modelled as `Nat` (a discrete time line);
  `Instant::now()` becomes an explicit `now : Nat` argument to the
  operations that read the clock.
* `Bytes` is modelled as `String` (an opaque byte payload).
* `HashMap<String, Entry>` is modelled as an association list with unique
  keys; `HashMap::insert` returns the previous binding, as in Rust.
* `BTreeMap<(Instant, u64), String>` is modelled as an association list
  that is kept sorted in strictly increasing lexicographic key order, so
  that the head of the list is the minimal key, matching
  `BTreeMap::iter().next()`.
* `Mutex<State>` becomes explicit state passing: each operation takes the
  `State` observed when the lock is acquired and returns the `State` left
  behind when the lock is released.  The `Notify` wake-up primitive is
  modelled by returning the boolean that decides whether `notify_one` is
  called after the lock is dropped.
-/

set_option autoImplicit false

namespace Rudis

/-- Byte payloads (`bytes::Bytes`). -/
abbrev Bytes := String

/-- `Entry` from `src/db.rs`: a stored value together with the unique id of
the insertion that produced it and its optional expiration instant. -/
structure Entry where
  id : Nat
  data : Bytes
  expired_at : Option Nat
  deriving Repr, DecidableEq

/-- The `entries` field of `State`: `HashMap<String, Entry>` as an
association list. -/
abbrev EntryMap := List (String × Entry)

/-- The `expirations` field of `State`:
`BTreeMap<(Instant, u64), String>` as a sorted association list. -/
abbrev ExpMap := List ((Nat × Nat) × String)

/-- `State` from `src/db.rs`.  The `pub_sub` registry is omitted: no
operation of `src/db.rs` touches it. -/
structure State where
  entries : EntryMap
  expirations : ExpMap
  next_id : Nat
  shutdown : Bool
  deriving Repr, DecidableEq

/-! ## The association-list model of `HashMap<String, Entry>` -/

/-- `HashMap::get`. -/
def mapGet : EntryMap → String → Option Entry
  | [], _ => none
  | (k, v) :: rest, key => if k = key then some v else mapGet rest key

/-- `HashMap::insert`; returns the updated map together with the previous
binding of the key, as Rust's `insert` does. -/
def mapInsert : EntryMap → String → Entry → EntryMap × Option Entry
  | [], key, v => ([(key, v)], none)
  | (k, w) :: rest, key, v =>
    if k = key then ((key, v) :: rest, some w)
    else
      let r := mapInsert rest key v
      ((k, w) :: r.1, r.2)

/-- `HashMap::remove` (the returned previous value is unused in
`purge_expired_keys`, so it is not modelled). -/
def mapRemove : EntryMap → String → EntryMap
  | [], _ => []
  | (k, w) :: rest, key => if k = key then rest else (k, w) :: mapRemove rest key

/-! ## The sorted-list model of `BTreeMap<(Instant, u64), String>` -/

/-- Lexicographic order on `(Instant, u64)` keys, the order `BTreeMap`
uses for `(tokio::time::Instant, u64)` pairs. -/
def keyLtb (a b : Nat × Nat) : Bool :=
  a.1 < b.1 || (a.1 == b.1 && a.2 < b.2)

/-- `BTreeMap::insert`: place the record at its ordered position,
replacing any record with the same key. -/
def expInsert : ExpMap → (Nat × Nat) → String → ExpMap
  | [], k, v => [(k, v)]
  | (k0, v0) :: rest, k, v =>
    if keyLtb k k0 then (k, v) :: (k0, v0) :: rest
    else if k = k0 then (k, v) :: rest
    else (k0, v0) :: expInsert rest k v

/-- `BTreeMap::remove`. -/
def expRemove : ExpMap → (Nat × Nat) → ExpMap
  | [], _ => []
  | (k0, v0) :: rest, k => if k = k0 then rest else (k0, v0) :: expRemove rest k

/-- The list is in strictly increasing key order — the representation
invariant of the `BTreeMap` model. -/
def ExpSorted (l : ExpMap) : Prop :=
  l.Pairwise fun r s => keyLtb r.1 s.1 = true

/-! ## The store operations of `src/db.rs` -/

/-- `State::next_expiration`: the instant component of the minimal key of
`expirations` (`BTreeMap::keys().next()`). -/
def State.next_expiration (s : State) : Option Nat :=
  s.expirations.head?.map fun r => r.1.1

/-- `Db::get`: look the key up in `entries` and clone the data.  No clock
is consulted and no entry is removed: the returned value ignores
`expired_at` entirely. -/
def Db.get (st : State) (key : String) : Option Bytes :=
  (mapGet st.entries key).map fun entry => entry.data

/-- `Db::set`.  Returns the state left behind when the lock is released,
together with the `notify` flag that decides whether
`background_task.notify_one()` is called afterwards.

The structure mirrors `src/db.rs` line by line: draw a fresh `id` from
`next_id`; inside `expire.map`, compute `when = now + duration`, decide
`notify` from `next_expiration()` (consulted before the new record is
inserted), and insert the new expiration record; insert the new entry,
obtaining the previous one; finally retire the previous entry's
expiration record, if it had one. -/
def Db.set (st : State) (key : String) (value : Bytes) (expire : Option Nat)
    (now : Nat) : State × Bool :=
  let id := st.next_id
  let st1 : State := { st with next_id := st.next_id + 1 }
  let step : State × Bool × Option Nat :=
    match expire with
    | none => (st1, false, none)
    | some duration =>
      let when := now + duration
      let notify :=
        (st1.next_expiration.map fun expiration => decide (expiration > when)).getD true
      ({ st1 with expirations := expInsert st1.expirations (when, id) key },
        notify, some when)
  let st2 := step.1
  let notify := step.2.1
  let expired_at := step.2.2
  let ins := mapInsert st2.entries key { id := id, data := value, expired_at := expired_at }
  let st3 : State := { st2 with entries := ins.1 }
  let st4 : State :=
    match ins.2 with
    | some prev =>
      match prev.expired_at with
      | some when => { st3 with expirations := expRemove st3.expirations (when, prev.id) }
      | none => st3
    | none => st3
  (st4, notify)

/-- `Db::shutdown_purge_task`: set the shutdown flag (the unconditional
`notify_one` that follows carries no state). -/
def Db.shutdown_purge_task (st : State) : State :=
  { st with shutdown := true }

/-- The `while let` loop of `Shared::purge_expired_keys`: repeatedly look
at the minimal record of `expirations` (the head of the sorted list); if
its instant is still in the future, stop and return it; otherwise remove
the entry it points at and the record itself (removing the minimal record
of the sorted list is dropping its head) and continue. -/
def purgeLoop : EntryMap → ExpMap → Nat → EntryMap × ExpMap × Option Nat
  | entries, [], _ => (entries, [], none)
  | entries, ((when, i), key) :: rest, now =>
    if when > now then (entries, ((when, i), key) :: rest, some when)
    else purgeLoop (mapRemove entries key) rest now

/-- `Shared::purge_expired_keys`: a no-op returning `None` when the
shutdown flag is set; otherwise one pass of the purge loop at the current
instant. -/
def Shared.purge_expired_keys (st : State) (now : Nat) : State × Option Nat :=
  if st.shutdown then (st, none)
  else
    let r := purgeLoop st.entries st.expirations now
    ({ st with entries := r.1, expirations := r.2.1 }, r.2.2)

/-- The state of a freshly constructed `Db` (`Db::new`). -/
def initialState : State :=
  { entries := [], expirations := [], next_id := 0, shutdown := false }

/-- The store states observable while the state lock is not held: the
initial state and everything produced from it by `set`, by one pass of
the purge loop, or by the shutdown path (`get` does not change state). -/
inductive Reachable : State → Prop
  | init : Reachable initialState
  | set (st : State) (key : String) (value : Bytes) (expire : Option Nat) (now : Nat) :
      Reachable st → Reachable (Db.set st key value expire now).1
  | purge (st : State) (now : Nat) :
      Reachable st → Reachable (Shared.purge_expired_keys st now).1
  | shutdown (st : State) :
      Reachable st → Reachable (Db.shutdown_purge_task st)

/-- A store state holding one logically expired entry: key "k" expired at
instant 3 but has not been purged yet. -/
def expiredState : State :=
  { entries := [("k", { id := 0, data := "v", expired_at := some 3 })],
    expirations := [((3, 0), "k")], next_id := 1, shutdown := false }

/-! ## The command layer (`src/cmd/mod.rs`) and its collaborators

`src/frame.rs`, `src/parse.rs`, `src/cmd/get.rs`, `src/cmd/set.rs` and
`src/cmd/unknown.rs` are not among the sources; the spec (§4.3, §6)
describes their contracts, and every definition below whose comment
starts with `Modelled from the spec:` is reconstructed from those
contracts.  `Command`, `Command::from_frame` and `Command::apply` are
translated from `src/cmd/mod.rs` itself. -/

/-- Modelled from the spec: `Frame` (`src/frame.rs` is absent).  §6: a
frame is a Simple String, Error, Integer, Bulk byte string, Null, or
Array of frames.  Integers here are the non-negative counts the verified
claims exercise. -/
inductive Frame where
  | simple (s : String)
  | error (msg : String)
  | integer (n : Nat)
  | bulk (b : Bytes)
  | null
  | array (items : List Frame)
  deriving Repr

/-- Modelled from the spec: the `Parse` cursor over a request frame
(`src/parse.rs` is absent): the not-yet-consumed elements of the request
array. -/
structure Parse where
  parts : List Frame
  deriving Repr

/-- Modelled from the spec: `Parse::new` — §6: requests are always
Arrays; any other frame is a protocol error. -/
def Parse.new (frame : Frame) : Except String Parse :=
  match frame with
  | .array items => .ok { parts := items }
  | _ => .error "protocol error; expected array"

/-- Modelled from the spec: draw the next element of the request array. -/
def Parse.next (p : Parse) : Except String (Frame × Parse) :=
  match p.parts with
  | [] => .error "protocol error; unexpected end of stream"
  | f :: rest => .ok (f, { parts := rest })

/-- Modelled from the spec: read the next element as a string — §6 verbs
and string arguments are Bulk or Simple strings.  The element is returned
verbatim. -/
def Parse.next_string (p : Parse) : Except String (String × Parse) :=
  match p.next with
  | .error e => .error e
  | .ok (f, p1) =>
    match f with
    | .simple s => .ok (s, p1)
    | .bulk b => .ok (b, p1)
    | _ => .error "protocol error; expected simple or bulk frame"

/-- Modelled from the spec: read the next element as a byte payload. -/
def Parse.next_bytes (p : Parse) : Except String (Bytes × Parse) :=
  match p.next with
  | .error e => .error e
  | .ok (f, p1) =>
    match f with
    | .simple s => .ok (s, p1)
    | .bulk b => .ok (b, p1)
    | _ => .error "protocol error; expected simple or bulk frame"

/-- Decimal digits to a number; `none` on any non-digit character. -/
def digitsToNat : List Char → Nat → Option Nat
  | [], acc => some acc
  | c :: rest, acc =>
    if c.isDigit then digitsToNat rest (acc * 10 + (c.toNat - 48))
    else none

/-- Modelled from the spec: parse a string as a non-negative decimal
number, failing on the empty string or any non-digit. -/
def strToNat (s : String) : Option Nat :=
  match s.data with
  | [] => none
  | l => digitsToNat l 0

/-- Modelled from the spec: read the next element as a non-negative
integer; §4.3 requires a parse failure on a non-numeric value. -/
def Parse.next_int (p : Parse) : Except String (Nat × Parse) :=
  match p.next with
  | .error e => .error e
  | .ok (f, p1) =>
    match f with
    | .integer n => .ok (n, p1)
    | .simple s =>
      match strToNat s with
      | some n => .ok (n, p1)
      | none => .error "protocol error; invalid number"
    | .bulk b =>
      match strToNat b with
      | some n => .ok (n, p1)
      | none => .error "protocol error; invalid number"
    | _ => .error "protocol error; expected int frame"

/-- Modelled from the spec: `Parse::finish` — §4.3: trailing unconsumed
arguments after a command's known fields fail parsing. -/
def Parse.finish (p : Parse) : Except String Unit :=
  match p.parts with
  | [] => .ok ()
  | _ => .error "protocol error; expected end of frame, but there was more"

/-- `Get` (`src/cmd/get.rs` is absent; its one field is the key, per the
spec's GET(key)). -/
structure Get where
  key : String
  deriving Repr, DecidableEq

/-- `Set` (`src/cmd/set.rs` is absent; fields per the spec:
SET(key, value, optional ttl)). -/
structure Set where
  key : String
  value : Bytes
  expire : Option Nat
  deriving Repr, DecidableEq

/-- `Publish` from `src/cmd/publish.rs`: channel and message. -/
structure Publish where
  channel : String
  message : Bytes
  deriving Repr, DecidableEq

/-- `Subscribe` from `src/cmd/subscribe.rs`. -/
structure Subscribe where
  channels : List String
  deriving Repr, DecidableEq

/-- `Unsubscribe` from `src/cmd/subscribe.rs`. -/
structure Unsubscribe where
  channels : List String
  deriving Repr, DecidableEq

/-- `Unknown` (`src/cmd/unknown.rs` is absent; per the spec it carries the
unrecognized verb). -/
structure Unknown where
  command_name : String
  deriving Repr, DecidableEq

/-- Modelled from the spec: `Get::parse_frames` reads the single key
argument. -/
def Get.parse_frames (p : Parse) : Except String (Get × Parse) :=
  match p.next_string with
  | .error e => .error e
  | .ok (key, p1) => .ok ({ key := key }, p1)

/-- Modelled from the spec: `Set::parse_frames` reads key and value, then
an optional expiration option (`EX <seconds>`); a non-numeric expiration
value fails parsing (§4.3), and when no elements remain the ttl is
absent. -/
def Set.parse_frames (p : Parse) : Except String (Set × Parse) :=
  match p.next_string with
  | .error e => .error e
  | .ok (key, p1) =>
    match p1.next_bytes with
    | .error e => .error e
    | .ok (value, p2) =>
      match p2.parts with
      | [] => .ok ({ key := key, value := value, expire := none }, p2)
      | _ =>
        match p2.next_string with
        | .error e => .error e
        | .ok (opt, p3) =>
          if opt = "EX" then
            match p3.next_int with
            | .error e => .error e
            | .ok (secs, p4) =>
              .ok ({ key := key, value := value, expire := some secs }, p4)
          else
            .error "currently SET only supports the expiration option"

/-- `Command` from `src/cmd/mod.rs`. -/
inductive Command where
  | get (cmd : Get)
  | publish (cmd : Publish)
  | set (cmd : Set)
  | subscribe (cmd : Subscribe)
  | unsubscribe (cmd : Unsubscribe)
  | unknown (cmd : Unknown)
  deriving Repr, DecidableEq

/-- `Command::from_frame` from `src/cmd/mod.rs`: read the first element
as the verb; dispatch on it — "get" and "set" are the only recognized
verbs and the match is on the exact string; recognized commands run
`parse.finish()`, while the wildcard arm early-returns `Unknown`
(skipping `finish`). -/
def Command.from_frame (frame : Frame) : Except String Command :=
  match Parse.new frame with
  | .error e => .error e
  | .ok p =>
    match p.next_string with
    | .error e => .error e
    | .ok (cmd_name, p1) =>
      if cmd_name = "get" then
        match Get.parse_frames p1 with
        | .error e => .error e
        | .ok (cmd, p2) =>
          match p2.finish with
          | .error e => .error e
          | .ok _ => .ok (Command.get cmd)
      else if cmd_name = "set" then
        match Set.parse_frames p1 with
        | .error e => .error e
        | .ok (cmd, p2) =>
          match p2.finish with
          | .error e => .error e
          | .ok _ => .ok (Command.set cmd)
      else
        .ok (Command.unknown { command_name := cmd_name })

/-- Modelled from the spec: `Get::apply` — look the key up in the store;
write a bulk reply with the value, or a Null reply if absent (§4.3). -/
def Get.apply (cmd : Get) (db : State) : Except String (State × List Frame) :=
  match Db.get db cmd.key with
  | some value => .ok (db, [Frame.bulk value])
  | none => .ok (db, [Frame.null])

/-- Modelled from the spec: `Set::apply` — write the value with its ttl
into the store; reply with simple "OK". -/
def Set.apply (cmd : Set) (db : State) (now : Nat) :
    Except String (State × List Frame) :=
  .ok ((Db.set db cmd.key cmd.value cmd.expire now).1, [Frame.simple "OK"])

/-- Modelled from the spec: `Unknown::apply` — write an error reply naming
the unrecognized command, and succeed. -/
def Unknown.apply (cmd : Unknown) (db : State) : Except String (State × List Frame) :=
  .ok (db, [Frame.error ("ERR unknown command " ++ cmd.command_name)])

/-- `Command::apply` from `src/cmd/mod.rs`: dispatch Get, Set and
Unknown; the Subscribe and Publish arms are commented out in the source,
so every remaining variant falls to `Err("Unimplemented command.")`. -/
def Command.apply (c : Command) (db : State) (now : Nat) :
    Except String (State × List Frame) :=
  match c with
  | .get cmd => cmd.apply db
  | .set cmd => cmd.apply db now
  | .unknown cmd => cmd.apply db
  | _ => .error "Unimplemented command."

/-- One iteration of the `Handler::run` loop of `src/server.rs` on a
decoded frame: parse it into a `Command` and apply it against the store;
a parse or apply error aborts the connection. -/
def handlerStep (db : State) (now : Nat) (frame : Frame) :
    Except String (State × List Frame) :=
  match Command.from_frame frame with
  | .error e => .error e
  | .ok cmd => cmd.apply db now

/-- The handler loop over a sequence of decoded frames: the connection
stays usable exactly as long as every step succeeds; replies accumulate
in order. -/
def processFrames (db : State) (now : Nat) :
    List Frame → Except String (State × List Frame)
  | [] => .ok (db, [])
  | f :: rest =>
    match handlerStep db now f with
    | .error e => .error e
    | .ok (db1, out1) =>
      match processFrames db1 now rest with
      | .error e => .error e
      | .ok (db2, out2) => .ok (db2, out1 ++ out2)

/-! ## The accept-retry loop of `src/server.rs` -/

/-- One outcome of `TcpListener::accept`: a socket (numbered) or a
transient error. -/
inductive AcceptOutcome where
  | ok (socket : Nat)
  | err
  deriving Repr, DecidableEq

/-- The retry loop of `Listener::accept` in `src/server.rs`, driven by a
list of accept outcomes: return the socket on the first success; on an
error, give up and propagate it once `backoff > 32`, otherwise sleep
`backoff` seconds (recorded in the returned list) and double it.  The
first component is `none` when the outcome list is exhausted with the
loop still running. -/
def acceptGo : List AcceptOutcome → Nat → List Nat →
    Option (Except Unit Nat) × List Nat
  | [], _, sleeps => (none, sleeps)
  | .ok s :: _, _, sleeps => (some (.ok s), sleeps)
  | .err :: rest, backoff, sleeps =>
    if backoff > 32 then (some (.error ()), sleeps)
    else acceptGo rest (backoff * 2) (sleeps ++ [backoff])

/-- `Listener::accept`: the loop starts with `backoff = 1`. -/
def Listener.accept (outcomes : List AcceptOutcome) :
    Option (Except Unit Nat) × List Nat :=
  acceptGo outcomes 1 []

example : Db.get initialState "k" = none := rfl

example :
    Db.set initialState "k" "v" (some 5) 0 =
      ({ entries := [("k", { id := 0, data := "v", expired_at := some 5 })],
         expirations := [((5, 0), "k")], next_id := 1, shutdown := false }, true) := rfl

example :
    Shared.purge_expired_keys
      { entries := [("k", { id := 0, data := "v", expired_at := some 5 })],
        expirations := [((5, 0), "k")], next_id := 1, shutdown := false } 5 =
      ({ entries := [], expirations := [], next_id := 1, shutdown := false }, none) := rfl

example :
    Shared.purge_expired_keys
      { entries := [("k", { id := 0, data := "v", expired_at := some 5 })],
        expirations := [((5, 0), "k")], next_id := 1, shutdown := false } 4 =
      ({ entries := [("k", { id := 0, data := "v", expired_at := some 5 })],
         expirations := [((5, 0), "k")], next_id := 1, shutdown := false }, some 5) := rfl

/-! ## Lemmas about the key order -/

lemma keyLtb_iff (a b : Nat × Nat) :
    keyLtb a b = true ↔ a.1 < b.1 ∨ (a.1 = b.1 ∧ a.2 < b.2) := by
  simp [keyLtb]

lemma keyLtb_irrefl (a : Nat × Nat) : keyLtb a a = false := by
  simp [keyLtb]

lemma keyLtb_trans {a b c : Nat × Nat} (h1 : keyLtb a b = true)
    (h2 : keyLtb b c = true) : keyLtb a c = true := by
  rw [keyLtb_iff] at h1 h2 ⊢
  omega

lemma keyLtb_of_not {a b : Nat × Nat} (h : keyLtb a b = false) (hne : a ≠ b) :
    keyLtb b a = true := by
  have h1 : ¬ keyLtb a b = true := by simp [h]
  rw [keyLtb_iff] at h1
  rw [keyLtb_iff]
  have h3 : ¬(a.1 = b.1 ∧ a.2 = b.2) := by
    intro hc
    exact hne (Prod.ext_iff.mpr ⟨hc.1, hc.2⟩)
  omega

lemma keyLtb_ne {a b : Nat × Nat} (h : keyLtb a b = true) : a ≠ b := by
  intro he
  subst he
  rw [keyLtb_irrefl] at h
  exact Bool.false_ne_true h

/-! ## Lemmas about the `HashMap` model -/

lemma mapGet_eq_none {m : EntryMap} {k : String} (h : k ∉ m.map Prod.fst) :
    mapGet m k = none := by
  induction m with
  | nil => rfl
  | cons p rest ih =>
    obtain ⟨k0, w⟩ := p
    rw [List.map_cons] at h
    have h1 : ¬ k0 = k := fun hc => h (List.mem_cons.mpr (Or.inl hc.symm))
    have h2 : k ∉ rest.map Prod.fst := fun hc => h (List.mem_cons.mpr (Or.inr hc))
    simp [mapGet, h1, ih h2]

lemma mapGet_mapInsert_self (m : EntryMap) (k : String) (v : Entry) :
    mapGet (mapInsert m k v).1 k = some v := by
  induction m with
  | nil => simp [mapInsert, mapGet]
  | cons p rest ih =>
    obtain ⟨k0, w⟩ := p
    by_cases h : k0 = k
    · simp [mapInsert, h, mapGet]
    · simp [mapInsert, h, mapGet, ih]

lemma mapGet_mapInsert_ne (m : EntryMap) (k : String) (v : Entry) {kq : String}
    (h : kq ≠ k) : mapGet (mapInsert m k v).1 kq = mapGet m kq := by
  induction m with
  | nil => simp [mapInsert, mapGet, Ne.symm h]
  | cons p rest ih =>
    obtain ⟨k0, w⟩ := p
    by_cases h0 : k0 = k
    · subst h0
      simp [mapInsert, mapGet, Ne.symm h]
    · by_cases hq : k0 = kq
      · subst hq
        simp [mapInsert, mapGet, h0]
      · simp [mapInsert, h0, mapGet, hq, ih]

lemma mapInsert_snd (m : EntryMap) (k : String) (v : Entry) :
    (mapInsert m k v).2 = mapGet m k := by
  induction m with
  | nil => rfl
  | cons p rest ih =>
    obtain ⟨k0, w⟩ := p
    by_cases h : k0 = k
    · simp [mapInsert, h, mapGet]
    · simp [mapInsert, h, mapGet, ih]

lemma mapRemove_sublist (m : EntryMap) (k : String) :
    List.Sublist (mapRemove m k) m := by
  induction m with
  | nil => simp [mapRemove]
  | cons p rest ih =>
    obtain ⟨k0, w⟩ := p
    by_cases h : k0 = k
    · rw [show mapRemove ((k0, w) :: rest) k = rest from by simp [mapRemove, h]]
      exact List.sublist_cons_self (k0, w) rest
    · simpa [mapRemove, h] using ih.cons₂ (k0, w)

lemma mapGet_mapRemove_ne (m : EntryMap) (k : String) {kq : String} (h : kq ≠ k) :
    mapGet (mapRemove m k) kq = mapGet m kq := by
  induction m with
  | nil => rfl
  | cons p rest ih =>
    obtain ⟨k0, w⟩ := p
    by_cases h0 : k0 = k
    · subst h0
      simp [mapRemove, mapGet, Ne.symm h]
    · by_cases hq : k0 = kq
      · subst hq
        simp [mapRemove, mapGet, h0]
      · simp [mapRemove, h0, mapGet, hq, ih]

lemma mapGet_mapRemove_self {m : EntryMap} (k : String)
    (hn : (m.map Prod.fst).Nodup) : mapGet (mapRemove m k) k = none := by
  induction m with
  | nil => rfl
  | cons p rest ih =>
    obtain ⟨k0, w⟩ := p
    simp only [List.map_cons, List.nodup_cons] at hn
    by_cases h : k0 = k
    · subst h
      simp only [mapRemove, if_pos rfl]
      exact mapGet_eq_none hn.1
    · simp [mapRemove, h, mapGet, ih hn.2]

lemma keys_mapInsert_subset {m : EntryMap} {k : String} {v : Entry} {a : String}
    (h : a ∈ (mapInsert m k v).1.map Prod.fst) : a = k ∨ a ∈ m.map Prod.fst := by
  induction m with
  | nil =>
    left
    simpa [mapInsert] using h
  | cons p rest ih =>
    obtain ⟨k0, w⟩ := p
    by_cases h0 : k0 = k
    · rw [show (mapInsert ((k0, w) :: rest) k v).1 = (k, v) :: rest from by
        simp [mapInsert, h0]] at h
      rw [List.map_cons] at h
      rcases List.mem_cons.mp h with h1 | h1
      · exact Or.inl h1
      · exact Or.inr (by rw [List.map_cons]; exact List.mem_cons.mpr (Or.inr h1))
    · rw [show (mapInsert ((k0, w) :: rest) k v).1 = (k0, w) :: (mapInsert rest k v).1 from by
        simp [mapInsert, h0]] at h
      rw [List.map_cons] at h
      rcases List.mem_cons.mp h with h1 | h1
      · exact Or.inr (by rw [List.map_cons]; exact List.mem_cons.mpr (Or.inl h1))
      · rcases ih h1 with h2 | h2
        · exact Or.inl h2
        · exact Or.inr (by rw [List.map_cons]; exact List.mem_cons.mpr (Or.inr h2))

lemma nodup_keys_mapInsert {m : EntryMap} (k : String) (v : Entry)
    (hn : (m.map Prod.fst).Nodup) : ((mapInsert m k v).1.map Prod.fst).Nodup := by
  induction m with
  | nil => simp [mapInsert]
  | cons p rest ih =>
    obtain ⟨k0, w⟩ := p
    rw [List.map_cons, List.nodup_cons] at hn
    by_cases h0 : k0 = k
    · rw [show (mapInsert ((k0, w) :: rest) k v).1 = (k, v) :: rest from by
        simp [mapInsert, h0]]
      rw [List.map_cons, List.nodup_cons]
      exact ⟨h0 ▸ hn.1, hn.2⟩
    · rw [show (mapInsert ((k0, w) :: rest) k v).1 = (k0, w) :: (mapInsert rest k v).1 from by
        simp [mapInsert, h0]]
      rw [List.map_cons, List.nodup_cons]
      refine ⟨fun hmem => ?_, ih hn.2⟩
      rcases keys_mapInsert_subset hmem with h1 | h1
      · exact h0 h1
      · exact hn.1 h1

lemma nodup_keys_mapRemove {m : EntryMap} (k : String)
    (hn : (m.map Prod.fst).Nodup) : ((mapRemove m k).map Prod.fst).Nodup :=
  hn.sublist ((mapRemove_sublist m k).map Prod.fst)

/-! ## Lemmas about the `BTreeMap` model -/

lemma expRemove_sublist (l : ExpMap) (k : Nat × Nat) :
    List.Sublist (expRemove l k) l := by
  induction l with
  | nil => simp [expRemove]
  | cons p rest ih =>
    obtain ⟨k0, v0⟩ := p
    by_cases h : k = k0
    · rw [show expRemove ((k0, v0) :: rest) k = rest from by simp [expRemove, h]]
      exact List.sublist_cons_self (k0, v0) rest
    · simpa [expRemove, h] using ih.cons₂ (k0, v0)

lemma mem_expRemove_of_ne {l : ExpMap} {k : Nat × Nat} {r : (Nat × Nat) × String}
    (h : r ∈ l) (hne : r.1 ≠ k) : r ∈ expRemove l k := by
  induction l with
  | nil => simp at h
  | cons p rest ih =>
    obtain ⟨k0, v0⟩ := p
    rcases List.mem_cons.mp h with h1 | h1
    · subst h1
      have hk : ¬ k = k0 := fun hc => hne hc.symm
      simp [expRemove, hk]
    · by_cases hk : k = k0
      · simpa [expRemove, hk] using h1
      · rw [show expRemove ((k0, v0) :: rest) k = (k0, v0) :: expRemove rest k from by
          simp [expRemove, hk]]
        exact List.mem_cons.mpr (Or.inr (ih h1))

lemma not_mem_expRemove {l : ExpMap} {k : Nat × Nat} {r : (Nat × Nat) × String}
    (hn : (l.map Prod.fst).Nodup) (hk : r.1 = k) : r ∉ expRemove l k := by
  induction l with
  | nil => simp [expRemove]
  | cons p rest ih =>
    obtain ⟨k0, v0⟩ := p
    rw [List.map_cons, List.nodup_cons] at hn
    by_cases h : k = k0
    · rw [show expRemove ((k0, v0) :: rest) k = rest from by simp [expRemove, h]]
      intro hmem
      have h1 : r.1 ∈ rest.map Prod.fst := List.mem_map_of_mem Prod.fst hmem
      rw [hk, h] at h1
      exact hn.1 h1
    · rw [show expRemove ((k0, v0) :: rest) k = (k0, v0) :: expRemove rest k from by
        simp [expRemove, h]]
      intro hmem
      rcases List.mem_cons.mp hmem with h1 | h1
      · have h2 : r.1 = k0 := by rw [h1]
        exact h (hk.symm.trans h2)
      · exact ih hn.2 h1

lemma ExpSorted.keysNodup {l : ExpMap} (h : ExpSorted l) : (l.map Prod.fst).Nodup :=
  List.Pairwise.map Prod.fst (fun _ _ hab => keyLtb_ne hab) h

lemma ExpSorted.of_cons {p : (Nat × Nat) × String} {rest : ExpMap}
    (h : ExpSorted (p :: rest)) : ExpSorted rest :=
  (List.pairwise_cons.mp h).2

lemma ExpSorted.head_lt {p : (Nat × Nat) × String} {rest : ExpMap}
    (h : ExpSorted (p :: rest)) : ∀ r ∈ rest, keyLtb p.1 r.1 = true :=
  (List.pairwise_cons.mp h).1

lemma mem_expInsert {l : ExpMap} {k : Nat × Nat} {v : String} {r : (Nat × Nat) × String}
    (h : r ∈ expInsert l k v) : r = (k, v) ∨ r ∈ l := by
  induction l with
  | nil =>
    left
    simpa [expInsert] using h
  | cons p rest ih =>
    obtain ⟨k0, v0⟩ := p
    by_cases h1 : keyLtb k k0 = true
    · rw [show expInsert ((k0, v0) :: rest) k v = (k, v) :: (k0, v0) :: rest from by
        simp [expInsert, h1]] at h
      rcases List.mem_cons.mp h with h2 | h2
      · exact Or.inl h2
      · exact Or.inr h2
    · by_cases h2 : k = k0
      · rw [show expInsert ((k0, v0) :: rest) k v = (k, v) :: rest from by
          simp [expInsert, h1, h2, keyLtb_irrefl]] at h
        rcases List.mem_cons.mp h with h3 | h3
        · exact Or.inl h3
        · exact Or.inr (List.mem_cons_of_mem _ h3)
      · rw [show expInsert ((k0, v0) :: rest) k v = (k0, v0) :: expInsert rest k v from by
          simp [expInsert, h1, h2, keyLtb_irrefl]] at h
        rcases List.mem_cons.mp h with h3 | h3
        · exact Or.inr (List.mem_cons.mpr (Or.inl h3))
        · rcases ih h3 with h4 | h4
          · exact Or.inl h4
          · exact Or.inr (List.mem_cons_of_mem _ h4)

lemma mem_expInsert_of_ne {l : ExpMap} {k : Nat × Nat} {v : String}
    {r : (Nat × Nat) × String} (h : r ∈ l) (hne : r.1 ≠ k) : r ∈ expInsert l k v := by
  induction l with
  | nil => simp at h
  | cons p rest ih =>
    obtain ⟨k0, v0⟩ := p
    by_cases h1 : keyLtb k k0 = true
    · rw [show expInsert ((k0, v0) :: rest) k v = (k, v) :: (k0, v0) :: rest from by
        simp [expInsert, h1]]
      exact List.mem_cons_of_mem _ h
    · by_cases h2 : k = k0
      · rw [show expInsert ((k0, v0) :: rest) k v = (k, v) :: rest from by
          simp [expInsert, h1, h2, keyLtb_irrefl]]
        rcases List.mem_cons.mp h with h3 | h3
        · have hr1 : r.1 = k0 := by rw [h3]
          exact absurd (hr1.trans h2.symm) hne
        · exact List.mem_cons_of_mem _ h3
      · rw [show expInsert ((k0, v0) :: rest) k v = (k0, v0) :: expInsert rest k v from by
          simp [expInsert, h1, h2, keyLtb_irrefl]]
        rcases List.mem_cons.mp h with h3 | h3
        · exact List.mem_cons.mpr (Or.inl h3)
        · exact List.mem_cons_of_mem _ (ih h3)

lemma self_mem_expInsert (l : ExpMap) (k : Nat × Nat) (v : String) :
    (k, v) ∈ expInsert l k v := by
  induction l with
  | nil => simp [expInsert]
  | cons p rest ih =>
    obtain ⟨k0, v0⟩ := p
    by_cases h1 : keyLtb k k0 = true
    · simp [expInsert, h1]
    · by_cases h2 : k = k0
      · simp [expInsert, h1, h2, keyLtb_irrefl]
      · rw [show expInsert ((k0, v0) :: rest) k v = (k0, v0) :: expInsert rest k v from by
          simp [expInsert, h1, h2, keyLtb_irrefl]]
        exact List.mem_cons_of_mem _ ih

lemma expSorted_expInsert {l : ExpMap} (k : Nat × Nat) (v : String)
    (h : ExpSorted l) : ExpSorted (expInsert l k v) := by
  induction l with
  | nil => simp [expInsert, ExpSorted]
  | cons p rest ih =>
    obtain ⟨k0, v0⟩ := p
    have h0 : ∀ r ∈ rest, keyLtb k0 r.1 = true := fun r hr => h.head_lt r hr
    have htail : ExpSorted rest := h.of_cons
    by_cases h1 : keyLtb k k0 = true
    · rw [show expInsert ((k0, v0) :: rest) k v = (k, v) :: (k0, v0) :: rest from by
        simp [expInsert, h1]]
      refine List.pairwise_cons.mpr ⟨?_, h⟩
      intro r hr
      rcases List.mem_cons.mp hr with h2 | h2
      · rw [h2]
        exact h1
      · exact keyLtb_trans h1 (h0 r h2)
    · by_cases h2 : k = k0
      · rw [show expInsert ((k0, v0) :: rest) k v = (k, v) :: rest from by
          simp [expInsert, h1, h2, keyLtb_irrefl]]
        refine List.pairwise_cons.mpr ⟨?_, htail⟩
        intro r hr
        rw [show ((k, v) : (Nat × Nat) × String).1 = k0 from h2]
        exact h0 r hr
      · rw [show expInsert ((k0, v0) :: rest) k v = (k0, v0) :: expInsert rest k v from by
          simp [expInsert, h1, h2, keyLtb_irrefl]]
        refine List.pairwise_cons.mpr ⟨?_, ih htail⟩
        intro r hr
        rcases mem_expInsert hr with h3 | h3
        · rw [h3]
          have h1f : keyLtb k k0 = false := by
            revert h1
            cases keyLtb k k0 <;> simp
          exact keyLtb_of_not h1f h2
        · exact h0 r h3

lemma expSorted_expRemove {l : ExpMap} (k : Nat × Nat) (h : ExpSorted l) :
    ExpSorted (expRemove l k) :=
  List.Pairwise.sublist (expRemove_sublist l k) h

/-! ## The cross-structure invariant of `State`

`entries` and `expirations` are kept in lock-step: every entry with an
expiration owns exactly one record, every record points back at its
entry, ids are fresh, and the two containers satisfy their representation
invariants. -/

structure Inv (st : State) : Prop where
  sorted : ExpSorted st.expirations
  keys_nodup : (st.entries.map Prod.fst).Nodup
  ids_lt : ∀ k e, mapGet st.entries k = some e → e.id < st.next_id
  exp_ids_lt : ∀ r ∈ st.expirations, r.1.2 < st.next_id
  ids_inj : ∀ k1 e1 k2 e2, mapGet st.entries k1 = some e1 →
      mapGet st.entries k2 = some e2 → e1.id = e2.id → k1 = k2
  entry_exp : ∀ k e t, mapGet st.entries k = some e → e.expired_at = some t →
      ((t, e.id), k) ∈ st.expirations
  exp_entry : ∀ t i k, ((t, i), k) ∈ st.expirations →
      ∃ e, mapGet st.entries k = some e ∧ e.id = i ∧ e.expired_at = some t

lemma inv_initialState : Inv initialState := by
  refine ⟨?_, ?_, ?_, ?_, ?_, ?_, ?_⟩ <;> simp [initialState, ExpSorted, mapGet]

/-! ## Case equations for `Db.set` -/

lemma set_snd_none (st : State) (key : String) (value : Bytes) (now : Nat) :
    (Db.set st key value none now).2 = false := rfl

lemma set_snd_some (st : State) (key : String) (value : Bytes) (d now : Nat) :
    (Db.set st key value (some d) now).2 =
      ((State.next_expiration { st with next_id := st.next_id + 1 }).map
        fun expiration => decide (expiration > now + d)).getD true := rfl

lemma set_none_eq_no_prev {st : State} {key : String} {value : Bytes} {now : Nat}
    (hprev : mapGet st.entries key = none) :
    (Db.set st key value none now).1 =
      { entries := (mapInsert st.entries key
          { id := st.next_id, data := value, expired_at := none }).1,
        expirations := st.expirations, next_id := st.next_id + 1,
        shutdown := st.shutdown } := by
  have h2 : (mapInsert st.entries key
      { id := st.next_id, data := value, expired_at := none }).2 = none := by
    rw [mapInsert_snd]
    exact hprev
  simp [Db.set, h2]

lemma set_none_eq_prev_none {st : State} {key : String} {value : Bytes} {now : Nat}
    {p : Entry} (hprev : mapGet st.entries key = some p) (hpe : p.expired_at = none) :
    (Db.set st key value none now).1 =
      { entries := (mapInsert st.entries key
          { id := st.next_id, data := value, expired_at := none }).1,
        expirations := st.expirations, next_id := st.next_id + 1,
        shutdown := st.shutdown } := by
  have h2 : (mapInsert st.entries key
      { id := st.next_id, data := value, expired_at := none }).2 = some p := by
    rw [mapInsert_snd]
    exact hprev
  simp [Db.set, h2, hpe]

lemma set_none_eq_prev_some {st : State} {key : String} {value : Bytes} {now : Nat}
    {p : Entry} {w : Nat} (hprev : mapGet st.entries key = some p)
    (hpe : p.expired_at = some w) :
    (Db.set st key value none now).1 =
      { entries := (mapInsert st.entries key
          { id := st.next_id, data := value, expired_at := none }).1,
        expirations := expRemove st.expirations (w, p.id), next_id := st.next_id + 1,
        shutdown := st.shutdown } := by
  have h2 : (mapInsert st.entries key
      { id := st.next_id, data := value, expired_at := none }).2 = some p := by
    rw [mapInsert_snd]
    exact hprev
  simp [Db.set, h2, hpe]

lemma set_some_eq_no_prev {st : State} {key : String} {value : Bytes} {d now : Nat}
    (hprev : mapGet st.entries key = none) :
    (Db.set st key value (some d) now).1 =
      { entries := (mapInsert st.entries key
          { id := st.next_id, data := value, expired_at := some (now + d) }).1,
        expirations := expInsert st.expirations (now + d, st.next_id) key,
        next_id := st.next_id + 1, shutdown := st.shutdown } := by
  have h2 : (mapInsert st.entries key
      { id := st.next_id, data := value, expired_at := some (now + d) }).2 = none := by
    rw [mapInsert_snd]
    exact hprev
  simp [Db.set, h2]

lemma set_some_eq_prev_none {st : State} {key : String} {value : Bytes} {d now : Nat}
    {p : Entry} (hprev : mapGet st.entries key = some p) (hpe : p.expired_at = none) :
    (Db.set st key value (some d) now).1 =
      { entries := (mapInsert st.entries key
          { id := st.next_id, data := value, expired_at := some (now + d) }).1,
        expirations := expInsert st.expirations (now + d, st.next_id) key,
        next_id := st.next_id + 1, shutdown := st.shutdown } := by
  have h2 : (mapInsert st.entries key
      { id := st.next_id, data := value, expired_at := some (now + d) }).2 = some p := by
    rw [mapInsert_snd]
    exact hprev
  simp [Db.set, h2, hpe]

lemma set_some_eq_prev_some {st : State} {key : String} {value : Bytes} {d now : Nat}
    {p : Entry} {w : Nat} (hprev : mapGet st.entries key = some p)
    (hpe : p.expired_at = some w) :
    (Db.set st key value (some d) now).1 =
      { entries := (mapInsert st.entries key
          { id := st.next_id, data := value, expired_at := some (now + d) }).1,
        expirations := expRemove
          (expInsert st.expirations (now + d, st.next_id) key) (w, p.id),
        next_id := st.next_id + 1, shutdown := st.shutdown } := by
  have h2 : (mapInsert st.entries key
      { id := st.next_id, data := value, expired_at := some (now + d) }).2 = some p := by
    rw [mapInsert_snd]
    exact hprev
  simp [Db.set, h2, hpe]

/-! ## Preservation of the invariant by `Db.set` -/

lemma mapGet_insert_cases {m : EntryMap} {key k : String} {v e : Entry}
    (h : mapGet (mapInsert m key v).1 k = some e) :
    (k = key ∧ e = v) ∨ (k ≠ key ∧ mapGet m k = some e) := by
  by_cases hk : k = key
  · subst hk
    rw [mapGet_mapInsert_self] at h
    exact Or.inl ⟨rfl, (Option.some.inj h).symm⟩
  · rw [mapGet_mapInsert_ne _ _ _ hk] at h
    exact Or.inr ⟨hk, h⟩

lemma ins_ids_lt {st : State} (h : Inv st) (key : String) (v : Entry)
    (hv : v.id = st.next_id) :
    ∀ k e, mapGet (mapInsert st.entries key v).1 k = some e → e.id < st.next_id + 1 := by
  intro k e hk
  rcases mapGet_insert_cases hk with ⟨rfl, rfl⟩ | ⟨hne, hold⟩
  · omega
  · exact Nat.lt_succ_of_lt (h.ids_lt k e hold)

lemma ins_ids_inj {st : State} (h : Inv st) (key : String) (v : Entry)
    (hv : v.id = st.next_id) :
    ∀ k1 e1 k2 e2, mapGet (mapInsert st.entries key v).1 k1 = some e1 →
      mapGet (mapInsert st.entries key v).1 k2 = some e2 → e1.id = e2.id → k1 = k2 := by
  intro k1 e1 k2 e2 h1 h2 hid
  rcases mapGet_insert_cases h1 with ⟨rfl, rfl⟩ | ⟨hne1, hold1⟩
  · rcases mapGet_insert_cases h2 with ⟨rfl, h2e⟩ | ⟨hne2, hold2⟩
    · rfl
    · have hlt := h.ids_lt k2 e2 hold2
      omega
  · rcases mapGet_insert_cases h2 with ⟨rfl, rfl⟩ | ⟨hne2, hold2⟩
    · have hlt := h.ids_lt k1 e1 hold1
      omega
    · exact h.ids_inj k1 e1 k2 e2 hold1 hold2 hid

lemma no_record_of_get_none {st : State} (h : Inv st) {key : String}
    (hg : mapGet st.entries key = none) :
    ∀ t i, ((t, i), key) ∉ st.expirations := by
  intro t i hmem
  obtain ⟨e, he, _, _⟩ := h.exp_entry t i key hmem
  rw [hg] at he
  exact Option.noConfusion he

lemma no_record_of_expired_none {st : State} (h : Inv st) {key : String} {p : Entry}
    (hg : mapGet st.entries key = some p) (hpe : p.expired_at = none) :
    ∀ t i, ((t, i), key) ∉ st.expirations := by
  intro t i hmem
  obtain ⟨e, he, hid, het⟩ := h.exp_entry t i key hmem
  rw [hg] at he
  obtain rfl := Option.some.inj he
  rw [hpe] at het
  exact Option.noConfusion het

lemma inv_set_keep {st : State} (h : Inv st) (key : String) (value : Bytes) (b : Bool)
    (Hkey : ∀ t i, ((t, i), key) ∉ st.expirations) :
    Inv { entries := (mapInsert st.entries key
            { id := st.next_id, data := value, expired_at := none }).1,
          expirations := st.expirations, next_id := st.next_id + 1, shutdown := b } := by
  refine ⟨h.sorted, nodup_keys_mapInsert key _ h.keys_nodup,
    ins_ids_lt h key _ rfl, ?_, ins_ids_inj h key _ rfl, ?_, ?_⟩
  · intro r hr
    exact Nat.lt_succ_of_lt (h.exp_ids_lt r hr)
  · intro k e t hk het
    rcases mapGet_insert_cases hk with ⟨rfl, rfl⟩ | ⟨hne, hold⟩
    · exact absurd het (by simp)
    · exact h.entry_exp k e t hold het
  · intro t i k hr
    by_cases hk : k = key
    · subst hk
      exact absurd hr (Hkey t i)
    · obtain ⟨e, he, hid, het⟩ := h.exp_entry t i k hr
      exact ⟨e, by rw [mapGet_mapInsert_ne _ _ _ hk]; exact he, hid, het⟩

lemma inv_set_remove {st : State} (h : Inv st) {key : String} {p : Entry} {w : Nat}
    (value : Bytes) (b : Bool) (hprev : mapGet st.entries key = some p)
    (hpe : p.expired_at = some w) :
    Inv { entries := (mapInsert st.entries key
            { id := st.next_id, data := value, expired_at := none }).1,
          expirations := expRemove st.expirations (w, p.id),
          next_id := st.next_id + 1, shutdown := b } := by
  refine ⟨expSorted_expRemove _ h.sorted, nodup_keys_mapInsert key _ h.keys_nodup,
    ins_ids_lt h key _ rfl, ?_, ins_ids_inj h key _ rfl, ?_, ?_⟩
  · intro r hr
    exact Nat.lt_succ_of_lt (h.exp_ids_lt r ((expRemove_sublist _ _).subset hr))
  · intro k e t hk het
    rcases mapGet_insert_cases hk with ⟨rfl, rfl⟩ | ⟨hne, hold⟩
    · exact absurd het (by simp)
    · refine mem_expRemove_of_ne (h.entry_exp k e t hold het) ?_
      intro he1
      have hid : e.id = p.id := congrArg Prod.snd he1
      exact hne (h.ids_inj k e key p hold hprev hid)
  · intro t i k hr
    have hr0 : ((t, i), k) ∈ st.expirations := (expRemove_sublist _ _).subset hr
    obtain ⟨e, he, hid, het⟩ := h.exp_entry t i k hr0
    by_cases hk : k = key
    · subst hk
      rw [hprev] at he
      obtain rfl := Option.some.inj he
      rw [hpe] at het
      obtain rfl := Option.some.inj het
      refine absurd hr (not_mem_expRemove h.sorted.keysNodup ?_)
      rw [← hid]
    · refine ⟨e, ?_, hid, het⟩
      rw [mapGet_mapInsert_ne _ _ _ hk]
      exact he

lemma inv_set_insert {st : State} (h : Inv st) (key : String) (value : Bytes)
    (d now : Nat) (b : Bool) (Hkey : ∀ t i, ((t, i), key) ∉ st.expirations) :
    Inv { entries := (mapInsert st.entries key
            { id := st.next_id, data := value, expired_at := some (now + d) }).1,
          expirations := expInsert st.expirations (now + d, st.next_id) key,
          next_id := st.next_id + 1, shutdown := b } := by
  refine ⟨expSorted_expInsert _ _ h.sorted, nodup_keys_mapInsert key _ h.keys_nodup,
    ins_ids_lt h key _ rfl, ?_, ins_ids_inj h key _ rfl, ?_, ?_⟩
  · intro r hr
    rcases mem_expInsert hr with rfl | hold
    · exact Nat.lt_succ_self _
    · exact Nat.lt_succ_of_lt (h.exp_ids_lt r hold)
  · intro k e t hk het
    rcases mapGet_insert_cases hk with ⟨rfl, rfl⟩ | ⟨hne, hold⟩
    · have ht : some (now + d) = some t := het
      obtain rfl := Option.some.inj ht
      exact self_mem_expInsert _ _ _
    · refine mem_expInsert_of_ne (h.entry_exp k e t hold het) ?_
      intro he1
      have hlt := h.ids_lt k e hold
      have h2 : e.id = st.next_id := congrArg Prod.snd he1
      omega
  · intro t i k hr
    rcases mem_expInsert hr with heq | hold
    · simp only [Prod.mk.injEq] at heq
      obtain ⟨⟨rfl, rfl⟩, rfl⟩ := heq
      exact ⟨_, mapGet_mapInsert_self _ _ _, rfl, rfl⟩
    · by_cases hk : k = key
      · subst hk
        exact absurd hold (Hkey t i)
      · obtain ⟨e, he, hid, het⟩ := h.exp_entry t i k hold
        exact ⟨e, by rw [mapGet_mapInsert_ne _ _ _ hk]; exact he, hid, het⟩

lemma inv_set_insert_remove {st : State} (h : Inv st) {key : String} {p : Entry}
    {w : Nat} (value : Bytes) (d now : Nat) (b : Bool)
    (hprev : mapGet st.entries key = some p) (hpe : p.expired_at = some w) :
    Inv { entries := (mapInsert st.entries key
            { id := st.next_id, data := value, expired_at := some (now + d) }).1,
          expirations := expRemove
            (expInsert st.expirations (now + d, st.next_id) key) (w, p.id),
          next_id := st.next_id + 1, shutdown := b } := by
  have hsorted1 : ExpSorted (expInsert st.expirations (now + d, st.next_id) key) :=
    expSorted_expInsert _ _ h.sorted
  have hpid : p.id < st.next_id := h.ids_lt key p hprev
  refine ⟨expSorted_expRemove _ hsorted1, nodup_keys_mapInsert key _ h.keys_nodup,
    ins_ids_lt h key _ rfl, ?_, ins_ids_inj h key _ rfl, ?_, ?_⟩
  · intro r hr
    have hr1 := (expRemove_sublist _ _).subset hr
    rcases mem_expInsert hr1 with rfl | hold
    · exact Nat.lt_succ_self _
    · exact Nat.lt_succ_of_lt (h.exp_ids_lt r hold)
  · intro k e t hk het
    rcases mapGet_insert_cases hk with ⟨rfl, rfl⟩ | ⟨hne, hold⟩
    · have ht : some (now + d) = some t := het
      obtain rfl := Option.some.inj ht
      refine mem_expRemove_of_ne (self_mem_expInsert _ _ _) ?_
      intro he1
      have h2 : st.next_id = p.id := congrArg Prod.snd he1
      omega
    · refine mem_expRemove_of_ne (mem_expInsert_of_ne (h.entry_exp k e t hold het) ?_) ?_
      · intro he1
        have hlt := h.ids_lt k e hold
        have h2 : e.id = st.next_id := congrArg Prod.snd he1
        omega
      · intro he1
        have hid : e.id = p.id := congrArg Prod.snd he1
        exact hne (h.ids_inj k e key p hold hprev hid)
  · intro t i k hr
    have hr1 := (expRemove_sublist _ _).subset hr
    rcases mem_expInsert hr1 with heq | hold
    · simp only [Prod.mk.injEq] at heq
      obtain ⟨⟨rfl, rfl⟩, rfl⟩ := heq
      exact ⟨_, mapGet_mapInsert_self _ _ _, rfl, rfl⟩
    · by_cases hk : k = key
      · subst hk
        obtain ⟨e, he, hid, het⟩ := h.exp_entry t i k hold
        rw [hprev] at he
        obtain rfl := Option.some.inj he
        rw [hpe] at het
        obtain rfl := Option.some.inj het
        refine absurd hr (not_mem_expRemove hsorted1.keysNodup ?_)
        rw [← hid]
      · obtain ⟨e, he, hid, het⟩ := h.exp_entry t i k hold
        exact ⟨e, by rw [mapGet_mapInsert_ne _ _ _ hk]; exact he, hid, het⟩

/-- `Db::set` preserves the cross-structure invariant. -/
lemma set_preserves_inv {st : State} (h : Inv st) (key : String) (value : Bytes)
    (expire : Option Nat) (now : Nat) : Inv (Db.set st key value expire now).1 := by
  cases expire with
  | none =>
    rcases hprev : mapGet st.entries key with _ | p
    · rw [set_none_eq_no_prev hprev]
      exact inv_set_keep h key value _ (no_record_of_get_none h hprev)
    · rcases hpe : p.expired_at with _ | w
      · rw [set_none_eq_prev_none hprev hpe]
        exact inv_set_keep h key value _ (no_record_of_expired_none h hprev hpe)
      · rw [set_none_eq_prev_some hprev hpe]
        exact inv_set_remove h value _ hprev hpe
  | some d =>
    rcases hprev : mapGet st.entries key with _ | p
    · rw [set_some_eq_no_prev hprev]
      exact inv_set_insert h key value d now _ (no_record_of_get_none h hprev)
    · rcases hpe : p.expired_at with _ | w
      · rw [set_some_eq_prev_none hprev hpe]
        exact inv_set_insert h key value d now _ (no_record_of_expired_none h hprev hpe)
      · rw [set_some_eq_prev_some hprev hpe]
        exact inv_set_insert_remove h value d now _ hprev hpe

/-! ## The purge loop: invariant preservation and characterization -/

lemma inv_purge_step {entries : EntryMap} {when i : Nat} {key : String} {rest : ExpMap}
    {N : Nat} {b : Bool}
    (hinv : Inv { entries := entries, expirations := ((when, i), key) :: rest,
                  next_id := N, shutdown := b }) :
    Inv { entries := mapRemove entries key, expirations := rest,
          next_id := N, shutdown := b } := by
  have hsorted : ExpSorted (((when, i), key) :: rest) := hinv.sorted
  have hkn : (entries.map Prod.fst).Nodup := hinv.keys_nodup
  obtain ⟨e0, he0, hid0, het0⟩ := hinv.exp_entry when i key (List.mem_cons_self _ _)
  refine ⟨hsorted.of_cons, nodup_keys_mapRemove key hkn, ?_, ?_, ?_, ?_, ?_⟩
  · intro k e hk
    by_cases hkk : k = key
    · subst hkk
      rw [mapGet_mapRemove_self k hkn] at hk
      exact Option.noConfusion hk
    · rw [mapGet_mapRemove_ne _ _ hkk] at hk
      exact hinv.ids_lt k e hk
  · intro r hr
    exact hinv.exp_ids_lt r (List.mem_cons_of_mem _ hr)
  · intro k1 e1 k2 e2 h1 h2 hid
    by_cases hk1 : k1 = key
    · subst hk1
      rw [mapGet_mapRemove_self k1 hkn] at h1
      exact Option.noConfusion h1
    · by_cases hk2 : k2 = key
      · subst hk2
        rw [mapGet_mapRemove_self k2 hkn] at h2
        exact Option.noConfusion h2
      · rw [mapGet_mapRemove_ne _ _ hk1] at h1
        rw [mapGet_mapRemove_ne _ _ hk2] at h2
        exact hinv.ids_inj k1 e1 k2 e2 h1 h2 hid
  · intro k e t hk het
    by_cases hkk : k = key
    · subst hkk
      rw [mapGet_mapRemove_self k hkn] at hk
      exact Option.noConfusion hk
    · rw [mapGet_mapRemove_ne _ _ hkk] at hk
      have hmem := hinv.entry_exp k e t hk het
      rcases List.mem_cons.mp hmem with h1 | h1
      · exact absurd (congrArg Prod.snd h1) hkk
      · exact h1
  · intro t j k hr
    obtain ⟨e, he, hid, het⟩ := hinv.exp_entry t j k (List.mem_cons_of_mem _ hr)
    by_cases hkk : k = key
    · subst hkk
      rw [he0] at he
      obtain rfl := Option.some.inj he
      rw [het0] at het
      obtain rfl := Option.some.inj het
      have hj : j = i := by omega
      subst hj
      have hlt := hsorted.head_lt _ hr
      rw [show (((when, j), k) : (Nat × Nat) × String).1 = (when, j) from rfl] at hlt
      rw [keyLtb_irrefl] at hlt
      simp at hlt
    · rw [mapGet_mapRemove_ne _ _ hkk]
      exact ⟨e, he, hid, het⟩

lemma purgeLoop_spec (now N : Nat) (b : Bool) :
    ∀ (exps : ExpMap) (entries : EntryMap),
      Inv { entries := entries, expirations := exps, next_id := N, shutdown := b } →
      Inv { entries := (purgeLoop entries exps now).1,
            expirations := (purgeLoop entries exps now).2.1,
            next_id := N, shutdown := b } ∧
      (∀ k e, mapGet (purgeLoop entries exps now).1 k = some e ↔
        (mapGet entries k = some e ∧ ∀ t, e.expired_at = some t → now < t)) ∧
      (purgeLoop entries exps now).2.1 =
        exps.dropWhile (fun r => decide (r.1.1 ≤ now)) ∧
      (purgeLoop entries exps now).2.2 =
        (exps.dropWhile fun r => decide (r.1.1 ≤ now)).head?.map fun r => r.1.1 := by
  intro exps
  induction exps with
  | nil =>
    intro entries hinv
    refine ⟨hinv, ?_, rfl, rfl⟩
    intro k e
    constructor
    · intro hk
      refine ⟨hk, fun t het => ?_⟩
      exact absurd (hinv.entry_exp k e t hk het) (List.not_mem_nil _)
    · intro hk
      exact hk.1
  | cons hd rest ih =>
    intro entries hinv
    obtain ⟨⟨when, i⟩, key⟩ := hd
    by_cases hfut : when > now
    · have hnle : ¬ (when ≤ now) := by omega
      have heq : purgeLoop entries (((when, i), key) :: rest) now =
          (entries, ((when, i), key) :: rest, some when) := by
        simp [purgeLoop, hfut]
      rw [heq]
      refine ⟨hinv, ?_, ?_, ?_⟩
      · intro k e
        constructor
        · intro hk
          refine ⟨hk, fun t het => ?_⟩
          have hmem := hinv.entry_exp k e t hk het
          rcases List.mem_cons.mp hmem with h1 | h1
          · have ht : t = when := by
              have h2 := congrArg (fun r : (Nat × Nat) × String => r.1.1) h1
              simpa using h2
            omega
          · have hlt := hinv.sorted.head_lt _ h1
            rw [keyLtb_iff] at hlt
            simp at hlt
            omega
        · intro hk
          exact hk.1
      · rw [List.dropWhile_cons]
        simp [hnle]
      · rw [List.dropWhile_cons]
        simp [hnle]
    · have hle : when ≤ now := by omega
      have heq : purgeLoop entries (((when, i), key) :: rest) now =
          purgeLoop (mapRemove entries key) rest now := by
        simp [purgeLoop, hfut]
      have hinv2 := inv_purge_step hinv
      obtain ⟨hI, hiff, hdrop, hnext⟩ := ih (mapRemove entries key) hinv2
      rw [heq]
      refine ⟨hI, ?_, ?_, ?_⟩
      · intro k e
        rw [hiff k e]
        by_cases hk : k = key
        · subst hk
          constructor
          · rintro ⟨h1, h2⟩
            rw [mapGet_mapRemove_self k hinv.keys_nodup] at h1
            exact Option.noConfusion h1
          · rintro ⟨h1, h2⟩
            obtain ⟨e0, he0, hid0, het0⟩ :=
              hinv.exp_entry when i k (List.mem_cons_self _ _)
            rw [h1] at he0
            obtain rfl := Option.some.inj he0
            have := h2 when het0
            omega
        · constructor
          · rintro ⟨h1, h2⟩
            rw [mapGet_mapRemove_ne _ _ hk] at h1
            exact ⟨h1, h2⟩
          · rintro ⟨h1, h2⟩
            refine ⟨?_, h2⟩
            rw [mapGet_mapRemove_ne _ _ hk]
            exact h1
      · rw [hdrop, List.dropWhile_cons]
        simp [hle]
      · rw [hnext, List.dropWhile_cons]
        simp [hle]

lemma purge_eq_of_not_shutdown {st : State} (hs : st.shutdown = false) (now : Nat) :
    Shared.purge_expired_keys st now =
      ({ entries := (purgeLoop st.entries st.expirations now).1,
         expirations := (purgeLoop st.entries st.expirations now).2.1,
         next_id := st.next_id, shutdown := st.shutdown },
       (purgeLoop st.entries st.expirations now).2.2) := by
  simp [Shared.purge_expired_keys, hs]

lemma purge_eq_of_shutdown {st : State} (hs : st.shutdown = true) (now : Nat) :
    Shared.purge_expired_keys st now = (st, none) := by
  simp [Shared.purge_expired_keys, hs]

lemma purge_preserves_inv {st : State} (h : Inv st) (now : Nat) :
    Inv (Shared.purge_expired_keys st now).1 := by
  rcases hs : st.shutdown with _ | _
  · rw [purge_eq_of_not_shutdown hs]
    have hst : Inv { entries := st.entries, expirations := st.expirations,
                     next_id := st.next_id, shutdown := st.shutdown } := h
    exact (purgeLoop_spec now st.next_id st.shutdown st.expirations st.entries hst).1
  · rw [purge_eq_of_shutdown hs]
    exact h

lemma shutdown_preserves_inv {st : State} (h : Inv st) :
    Inv (Db.shutdown_purge_task st) :=
  ⟨h.sorted, h.keys_nodup, h.ids_lt, h.exp_ids_lt, h.ids_inj, h.entry_exp, h.exp_entry⟩

/-- Every reachable store state satisfies the cross-structure invariant. -/
lemma reachable_inv {st : State} (h : Reachable st) : Inv st := by
  induction h with
  | init => exact inv_initialState
  | set st key value expire now _ ih => exact set_preserves_inv ih key value expire now
  | purge st now _ ih => exact purge_preserves_inv ih now
  | shutdown st _ ih => exact shutdown_preserves_inv ih

/-! ## Sorted drop-while is filter -/

lemma dropWhile_eq_filter_of_sorted {l : ExpMap} (h : ExpSorted l) (now : Nat) :
    l.dropWhile (fun r => decide (r.1.1 ≤ now)) =
      l.filter (fun r => decide (now < r.1.1)) := by
  induction l with
  | nil => rfl
  | cons hd rest ih =>
    rw [List.dropWhile_cons, List.filter_cons]
    by_cases hle : hd.1.1 ≤ now
    · have hnlt : ¬ (now < hd.1.1) := by omega
      rw [if_pos (by simp [hle]), if_neg (by simp [hnlt])]
      exact ih h.of_cons
    · have hlt : now < hd.1.1 := by omega
      have hall : ∀ r ∈ rest, decide (now < r.1.1) = true := by
        intro r hr
        have h2 := h.head_lt r hr
        rw [keyLtb_iff] at h2
        simp only [decide_eq_true_eq]
        omega
      rw [if_neg (by simp [hle]), if_pos (by simp [hlt])]
      rw [List.filter_eq_self.mpr hall]

lemma filter_eq_singleton_of_nodup {α : Type} [DecidableEq α] {l : List α} {a : α}
    (hnd : l.Nodup) (ha : a ∈ l) :
    l.filter (fun b => decide (b = a)) = [a] := by
  induction l with
  | nil => simp at ha
  | cons x rest ih =>
    rw [List.nodup_cons] at hnd
    rcases List.mem_cons.mp ha with rfl | ha2
    · rw [List.filter_cons]
      rw [List.filter_eq_nil_iff.mpr ?_]
      · simp
      · intro b hb
        simp only [decide_eq_true_eq]
        exact fun hbx => hnd.1 (hbx ▸ hb)
    · rw [List.filter_cons]
      have hxa : ¬ (x = a) := fun he => hnd.1 (he ▸ ha2)
      rw [if_neg (by simp [hxa])]
      exact ih hnd.2 ha2

/-! ## Command-layer lemmas -/

lemma from_frame_unknown (name : String) (args : List Frame)
    (h1 : name ≠ "get") (h2 : name ≠ "set") :
    Command.from_frame (.array (.bulk name :: args)) =
      .ok (.unknown { command_name := name }) := by
  have he : Command.from_frame (.array (.bulk name :: args)) =
      (if name = "get" then
        match Get.parse_frames { parts := args } with
        | .error e => .error e
        | .ok (cmd, p2) =>
          match p2.finish with
          | .error e => .error e
          | .ok _ => .ok (Command.get cmd)
      else if name = "set" then
        match Set.parse_frames { parts := args } with
        | .error e => .error e
        | .ok (cmd, p2) =>
          match p2.finish with
          | .error e => .error e
          | .ok _ => .ok (Command.set cmd)
      else
        .ok (Command.unknown { command_name := name })) := rfl
  rw [he, if_neg h1, if_neg h2]

/-! ## The claims -/

/-- C1: for every sequence of Store operations (set, get, purge of
expired keys, shutdown), at every point where the state lock is not held,
an entry for key `k` with `expires_at = Some t` exists in `entries` iff
exactly one record `((t, id), k)` with `id` equal to that entry's id
exists in `expirations`; entries with `expires_at = None` have no record
in `expirations`. -/
theorem C1_entries_expirations_lockstep (st : State) (h : Reachable st) :
    (∀ k e, mapGet st.entries k = some e →
      (∀ t, e.expired_at = some t →
        st.expirations.filter (fun r => decide (r = ((t, e.id), k))) = [((t, e.id), k)]) ∧
      (e.expired_at = none → ∀ t i, ((t, i), k) ∉ st.expirations)) ∧
    (∀ t i k, ((t, i), k) ∈ st.expirations →
      ∃ e, mapGet st.entries k = some e ∧ e.id = i ∧ e.expired_at = some t) := by
  have hinv := reachable_inv h
  constructor
  · intro k e hk
    constructor
    · intro t het
      have hmem := hinv.entry_exp k e t hk het
      have hnd : st.expirations.Nodup :=
        List.Nodup.of_map Prod.fst hinv.sorted.keysNodup
      exact filter_eq_singleton_of_nodup hnd hmem
    · intro hnone t i hmem
      obtain ⟨e2, he2, hid2, het2⟩ := hinv.exp_entry t i k hmem
      rw [hk] at he2
      obtain rfl := Option.some.inj he2
      rw [hnone] at het2
      exact Option.noConfusion het2
  · exact hinv.exp_entry

/-- Witness for C1 at the reachable state reached by one
`set("k", "v", ttl 5)` from the initial state: the entry's record occurs
exactly once. -/
theorem C1_witness :
    (Db.set initialState "k" "v" (some 5) 0).1.expirations.filter
      (fun r => decide (r = ((5, 0), "k"))) = [((5, 0), "k")] :=
  ((C1_entries_expirations_lockstep (Db.set initialState "k" "v" (some 5) 0).1
      (Reachable.set _ _ _ _ _ Reachable.init)).1
    "k" { id := 0, data := "v", expired_at := some 5 } rfl).1 5 rfl

/-- C2: on every reachable state whose shutdown flag is not set, one
purge pass removes exactly the entries whose expiration instant is at
most `now` (entries without a ttl survive), leaves exactly the
still-future records in `expirations` (the loop processes records in
ascending `(instant, id)` order, which the sorted-list model makes the
only possible order), and returns the instant of the first remaining
future record, or `None` if no future record remains. -/
theorem C2_purge_pass_spec (st : State) (now : Nat) (h : Reachable st)
    (hs : st.shutdown = false) :
    (∀ k e, mapGet (Shared.purge_expired_keys st now).1.entries k = some e ↔
      (mapGet st.entries k = some e ∧ ∀ t, e.expired_at = some t → now < t)) ∧
    (Shared.purge_expired_keys st now).1.expirations =
      st.expirations.filter (fun r => decide (now < r.1.1)) ∧
    (Shared.purge_expired_keys st now).2 =
      (st.expirations.filter fun r => decide (now < r.1.1)).head?.map
        (fun r => r.1.1) := by
  have hinv := reachable_inv h
  have hst : Inv { entries := st.entries, expirations := st.expirations,
                   next_id := st.next_id, shutdown := st.shutdown } := hinv
  obtain ⟨_, hiff, hdrop, hnext⟩ :=
    purgeLoop_spec now st.next_id st.shutdown st.expirations st.entries hst
  rw [purge_eq_of_not_shutdown hs]
  refine ⟨hiff, ?_, ?_⟩
  · exact hdrop.trans (dropWhile_eq_filter_of_sorted hinv.sorted now)
  · rw [show (({ entries := (purgeLoop st.entries st.expirations now).1,
                 expirations := (purgeLoop st.entries st.expirations now).2.1,
                 next_id := st.next_id, shutdown := st.shutdown },
               (purgeLoop st.entries st.expirations now).2.2) :
        State × Option Nat).2 = (purgeLoop st.entries st.expirations now).2.2 from rfl]
    rw [hnext, dropWhile_eq_filter_of_sorted hinv.sorted now]

/-- Witness for C2: purging at instant 10 the reachable state holding one
entry that expired at instant 5 leaves no expiration record. -/
theorem C2_witness :
    (Shared.purge_expired_keys (Db.set initialState "k" "v" (some 5) 0).1
      10).1.expirations = [] :=
  ((C2_purge_pass_spec (Db.set initialState "k" "v" (some 5) 0).1 10
      (Reachable.set _ _ _ _ _ Reachable.init) rfl).2.1).trans rfl

/-- C3: `set(key, value, ttl)` issues the eviction-task wake-up iff the
ttl is present and the new expiration instant is strictly earlier than
the soonest expiration tracked before the call (or nothing was tracked);
a set without a ttl never notifies. -/
theorem C3_notify_iff_earlier (st : State) (key : String) (value : Bytes)
    (expire : Option Nat) (now : Nat) :
    (Db.set st key value expire now).2 = true ↔
      ∃ d, expire = some d ∧
        (st.next_expiration = none ∨
          ∃ t0, st.next_expiration = some t0 ∧ now + d < t0) := by
  cases expire with
  | none =>
    rw [set_snd_none]
    simp
  | some d =>
    rw [set_snd_some]
    rw [show State.next_expiration { st with next_id := st.next_id + 1 } =
      st.next_expiration from rfl]
    rcases hh : st.next_expiration with _ | t0
    · simp
    · simp

/-- C5: `Db::get` returns a copy of the stored value exactly when the key
is present in `entries`.  The operation consults no clock and removes
nothing (it does not even return a state), so a logically expired but
not-yet-purged entry is still returned. -/
theorem C5_get_ignores_expiration (st : State) (key : String) :
    (∀ e, mapGet st.entries key = some e → Db.get st key = some e.data) ∧
    (Db.get st key = none ↔ mapGet st.entries key = none) := by
  constructor
  · intro e hk
    simp [Db.get, hk]
  · simp [Db.get]

/-- Witness for C5: the entry for "k" in `expiredState` expired at
instant 3, yet `get` still returns its value. -/
theorem C5_witness :
    mapGet expiredState.entries "k" =
      some { id := 0, data := "v", expired_at := some 3 } ∧
    Db.get expiredState "k" = some "v" :=
  ⟨rfl, (C5_get_ignores_expiration expiredState "k").1
    { id := 0, data := "v", expired_at := some 3 } rfl⟩

/-- C4: after `set(k, v1, Some d)` followed by `set(k, v2, None)`, no
record for k's old id (the id assigned by the first set) remains in
`expirations`, and a purge pass run at or after the original expiration
instant does not remove k: `get(k)` still returns v2. -/
theorem C4_overwrite_clears_expiration (st0 : State) (h : Reachable st0)
    (k : String) (v1 v2 : Bytes) (d now1 now2 now3 : Nat) (_hlate : now1 + d ≤ now3) :
    (∀ r ∈ (Db.set (Db.set st0 k v1 (some d) now1).1 k v2 none now2).1.expirations,
      r.1.2 ≠ st0.next_id) ∧
    Db.get (Shared.purge_expired_keys
      (Db.set (Db.set st0 k v1 (some d) now1).1 k v2 none now2).1 now3).1 k =
      some v2 := by
  have hinv0 := reachable_inv h
  have hinv1 : Inv (Db.set st0 k v1 (some d) now1).1 :=
    set_preserves_inv hinv0 k v1 (some d) now1
  have hget1 : mapGet (Db.set st0 k v1 (some d) now1).1.entries k =
      some { id := st0.next_id, data := v1, expired_at := some (now1 + d) } := by
    rcases hprev : mapGet st0.entries k with _ | p
    · rw [set_some_eq_no_prev hprev]
      exact mapGet_mapInsert_self _ _ _
    · rcases hpe : p.expired_at with _ | w
      · rw [set_some_eq_prev_none hprev hpe]
        exact mapGet_mapInsert_self _ _ _
      · rw [set_some_eq_prev_some hprev hpe]
        exact mapGet_mapInsert_self _ _ _
  have hst2 := @set_none_eq_prev_some (Db.set st0 k v1 (some d) now1).1 k v2 now2
    { id := st0.next_id, data := v1, expired_at := some (now1 + d) } (now1 + d)
    hget1 rfl
  have hinv2 : Inv (Db.set (Db.set st0 k v1 (some d) now1).1 k v2 none now2).1 :=
    set_preserves_inv hinv1 k v2 none now2
  constructor
  · intro r hr hr2
    rw [hst2] at hr
    have hr1 : r ∈ (Db.set st0 k v1 (some d) now1).1.expirations :=
      (expRemove_sublist _ _).subset hr
    obtain ⟨⟨t, i⟩, kq⟩ := r
    obtain ⟨e, he, hid, het⟩ := hinv1.exp_entry t i kq hr1
    have hi : i = st0.next_id := hr2
    have hkq : kq = k := by
      refine hinv1.ids_inj kq e k
        { id := st0.next_id, data := v1, expired_at := some (now1 + d) } he hget1 ?_
      rw [hid, hi]
    subst hkq
    rw [hget1] at he
    obtain rfl := Option.some.inj he
    have het2 : some (now1 + d) = some t := het
    obtain rfl := Option.some.inj het2
    exact not_mem_expRemove hinv1.sorted.keysNodup (by rw [hi]) hr
  · have hget2 : mapGet
        (Db.set (Db.set st0 k v1 (some d) now1).1 k v2 none now2).1.entries k =
        some { id := (Db.set st0 k v1 (some d) now1).1.next_id, data := v2,
               expired_at := none } := by
      rw [hst2]
      exact mapGet_mapInsert_self _ _ _
    rcases hs2 : (Db.set (Db.set st0 k v1 (some d) now1).1 k v2 none
        now2).1.shutdown with _ | _
    · rw [purge_eq_of_not_shutdown hs2]
      obtain ⟨_, hiff, _, _⟩ := purgeLoop_spec now3
        (Db.set (Db.set st0 k v1 (some d) now1).1 k v2 none now2).1.next_id
        (Db.set (Db.set st0 k v1 (some d) now1).1 k v2 none now2).1.shutdown
        (Db.set (Db.set st0 k v1 (some d) now1).1 k v2 none now2).1.expirations
        (Db.set (Db.set st0 k v1 (some d) now1).1 k v2 none now2).1.entries hinv2
      have hmem := (hiff k
        { id := (Db.set st0 k v1 (some d) now1).1.next_id, data := v2,
          expired_at := none }).mpr ⟨hget2, fun t het => Option.noConfusion het⟩
      simp [Db.get, hmem]
    · rw [purge_eq_of_shutdown hs2]
      simp [Db.get, hget2]

/-- Witness for C4 from the initial state with ttl 1 at time 0, the
overwrite at time 0 and the purge at time 1. -/
theorem C4_witness :
    (∀ r ∈ (Db.set (Db.set initialState "k" "v1" (some 1) 0).1 "k" "v2"
        none 0).1.expirations, r.1.2 ≠ initialState.next_id) ∧
    Db.get (Shared.purge_expired_keys
      (Db.set (Db.set initialState "k" "v1" (some 1) 0).1 "k" "v2" none 0).1
      1).1 "k" = some "v2" :=
  C4_overwrite_clears_expiration initialState Reachable.init "k" "v1" "v2"
    1 0 0 1 (by omega)

/-- C9: the accept loop returns the socket immediately on the first
success; each transient error (while `backoff ≤ 32`) sleeps the current
backoff — 1, 2, 4, 8, 16, 32 seconds in turn — before retrying; and the
first error observed after the backoff has been doubled past 32 (the
seventh consecutive error) propagates the error. -/
theorem C9_accept_backoff :
    (∀ s rest, Listener.accept (.ok s :: rest) = (some (.ok s), [])) ∧
    (∀ n s rest, n ≤ 6 →
      Listener.accept (List.replicate n .err ++ .ok s :: rest) =
        (some (.ok s), (List.range n).map fun j => 2 ^ j)) ∧
    (∀ rest, Listener.accept (List.replicate 7 .err ++ rest) =
      (some (.error ()), [1, 2, 4, 8, 16, 32])) := by
  refine ⟨fun s rest => rfl, ?_, fun rest => rfl⟩
  intro n s rest hn
  interval_cases n <;> rfl

/-- Witness for C9: three transient errors then a success sleep 1, 2 and
4 seconds and return the socket. -/
theorem C9_witness :
    Listener.accept (List.replicate 3 .err ++ [.ok 7]) =
      (some (.ok 7), [1, 2, 4]) :=
  C9_accept_backoff.2.1 3 7 [] (by omega)

/-- C6 fails on the code: the verb match in `Command::from_frame` is on
the exact string (no case folding anywhere on the path), so the frame
`["GET", "x"]` — differing from "get" only in letter case — parses to the
Unknown variant, not to Get. -/
theorem C6_counterexample :
    Command.from_frame (.array [.bulk "GET", .bulk "x"]) =
      .ok (.unknown { command_name := "GET" }) ∧
    Command.from_frame (.array [.bulk "GET", .bulk "x"]) ≠
      .ok (.get { key := "x" }) := by
  refine ⟨rfl, ?_⟩
  intro hc
  rw [show Command.from_frame (.array [.bulk "GET", .bulk "x"]) =
    .ok (.unknown { command_name := "GET" }) from rfl] at hc
  exact Command.noConfusion (Except.ok.inj hc)

/-- C6 amended: the command-verb match is case-sensitive — exactly the
strings "get" and "set" dispatch to the Get and Set variants, and every
other verb (including other casings such as "GET" or "Set") becomes the
Unknown variant carrying the verb verbatim. -/
theorem C6_amended_case_sensitive (name k : String)
    (h1 : name ≠ "get") (h2 : name ≠ "set") :
    Command.from_frame (.array [.bulk name, .bulk k]) =
      .ok (.unknown { command_name := name }) ∧
    Command.from_frame (.array [.bulk "get", .bulk k]) =
      .ok (.get { key := k }) ∧
    ∀ v, Command.from_frame (.array [.bulk "set", .bulk k, .bulk v]) =
      .ok (.set { key := k, value := v, expire := none }) :=
  ⟨from_frame_unknown name [.bulk k] h1 h2, rfl, fun _ => rfl⟩

/-- Witness for the amended C6 at the cased verb "GET". -/
theorem C6_witness :
    Command.from_frame (.array [.bulk "GET", .bulk "x"]) =
      .ok (.unknown { command_name := "GET" }) :=
  (C6_amended_case_sensitive "GET" "x" (by decide) (by decide)).1

/-- C7 fails on the code: "publish" is not among the dispatched verbs, so
`from_frame` yields Unknown rather than the Publish variant, and
`Command::apply` on a Publish value hits the commented-out arm and
returns the "Unimplemented command." error instead of fanning out and
writing a receiver count. -/
theorem C7_counterexample :
    Command.from_frame (.array [.bulk "publish", .bulk "ch", .bulk "msg"]) =
      .ok (.unknown { command_name := "publish" }) ∧
    Command.apply (.publish { channel := "ch", message := "msg" })
      initialState 0 = .error "Unimplemented command." :=
  ⟨rfl, rfl⟩

/-- C7 amended: a PUBLISH request frame parses to the Unknown variant
carrying "publish" (only "get" and "set" are dispatched), and applying a
Publish command value yields the "Unimplemented command." error — the
pub/sub application logic is not wired. -/
theorem C7_amended_publish_unwired (ch msg : String) (db : State) (now : Nat)
    (args : List Frame) :
    Command.from_frame (.array (.bulk "publish" :: args)) =
      .ok (.unknown { command_name := "publish" }) ∧
    Command.apply (.publish { channel := ch, message := msg }) db now =
      .error "Unimplemented command." :=
  ⟨from_frame_unknown "publish" args (by decide) (by decide), rfl⟩

/-- C8: an unrecognized verb parses to `Ok(Unknown(verb))`, not a parse
error; applying it writes an Error reply naming the verb and succeeds,
so the handler loop does not abort and the connection stays usable for a
subsequent valid command (here a GET, which still produces its reply). -/
theorem C8_unknown_command_error_reply (name : String) (args : List Frame)
    (db : State) (now : Nat) (k : String)
    (h1 : name ≠ "get") (h2 : name ≠ "set") :
    Command.from_frame (.array (.bulk name :: args)) =
      .ok (.unknown { command_name := name }) ∧
    handlerStep db now (.array (.bulk name :: args)) =
      .ok (db, [.error ("ERR unknown command " ++ name)]) ∧
    processFrames db now
      [.array (.bulk name :: args), .array [.bulk "get", .bulk k]] =
      .ok (db, [.error ("ERR unknown command " ++ name),
        match Db.get db k with
        | some v => Frame.bulk v
        | none => Frame.null]) := by
  have hff := from_frame_unknown name args h1 h2
  have hstep : handlerStep db now (.array (.bulk name :: args)) =
      .ok (db, [.error ("ERR unknown command " ++ name)]) := by
    simp only [handlerStep, hff]
    rfl
  have hget : handlerStep db now (.array [.bulk "get", .bulk k]) =
      .ok (db, [match Db.get db k with
        | some v => Frame.bulk v
        | none => Frame.null]) := by
    have h4 : Command.from_frame (.array [.bulk "get", .bulk k]) =
      .ok (.get { key := k }) := rfl
    simp only [handlerStep, h4, Command.apply, Get.apply]
    rcases hg : Db.get db k with _ | v <;> rfl
  refine ⟨hff, hstep, ?_⟩
  simp only [processFrames, hstep, hget]
  rfl

/-- Witness for C8 at the verb "FOO" against the initial store. -/
theorem C8_witness :
    Command.from_frame (.array [.bulk "FOO"]) =
      .ok (.unknown { command_name := "FOO" }) ∧
    handlerStep initialState 0 (.array [.bulk "FOO"]) =
      .ok (initialState, [.error ("ERR unknown command " ++ "FOO")]) ∧
    processFrames initialState 0
      [.array [.bulk "FOO"], .array [.bulk "get", .bulk "x"]] =
      .ok (initialState, [.error ("ERR unknown command " ++ "FOO"),
        match Db.get initialState "x" with
        | some v => Frame.bulk v
        | none => Frame.null]) :=
  C8_unknown_command_error_reply "FOO" [] initialState 0 "x"
    (by decide) (by decide)

/-- C10: the wildcard arm of `from_frame` early-returns before
`parse.finish()`, so an unrecognized verb followed by any number of extra
arguments never produces a parse error, whereas recognized commands with
trailing arguments fail at `finish` — shown for GET with extras after the
key and for SET with extras after key, value and expiration option. -/
theorem C10_unknown_skips_finish (name : String) (args : List Frame)
    (k v : String) (extra : List Frame)
    (h1 : name ≠ "get") (h2 : name ≠ "set") (hx : extra ≠ []) :
    Command.from_frame (.array (.bulk name :: args)) =
      .ok (.unknown { command_name := name }) ∧
    (∃ msg, Command.from_frame (.array (.bulk "get" :: .bulk k :: extra)) =
      .error msg) ∧
    (∃ msg, Command.from_frame (.array (.bulk "set" :: .bulk k :: .bulk v ::
      .bulk "EX" :: .bulk "60" :: extra)) = .error msg) := by
  refine ⟨from_frame_unknown name args h1 h2, ?_, ?_⟩
  · rcases extra with _ | ⟨f, rest⟩
    · exact absurd rfl hx
    · exact ⟨_, rfl⟩
  · rcases extra with _ | ⟨f, rest⟩
    · exact absurd rfl hx
    · exact ⟨_, rfl⟩

/-- Witness for C10: the unknown verb "FOO" with two extra arguments
parses fine; GET and SET with one trailing argument fail parsing. -/
theorem C10_witness :
    Command.from_frame (.array [.bulk "FOO", .bulk "a", .bulk "b"]) =
      .ok (.unknown { command_name := "FOO" }) ∧
    (∃ msg, Command.from_frame
      (.array [.bulk "get", .bulk "x", .bulk "junk"]) = .error msg) ∧
    (∃ msg, Command.from_frame (.array [.bulk "set", .bulk "x", .bulk "v",
      .bulk "EX", .bulk "60", .bulk "junk"]) = .error msg) :=
  C10_unknown_skips_finish "FOO" [.bulk "a", .bulk "b"] "x" "v" [.bulk "junk"]
    (by decide) (by decide) (fun h => List.noConfusion h)

end Rudis
